import Mathlib

/-!
Verification of the sample-invoice extractor (`src/main.py`).

Python strings are modelled as `List Char` (`Str`), and the string
operations the program uses (`strip`, `split`, `splitlines`, `lower`,
`upper`, `in`, `startswith`, `endswith`, `replace`, `isdigit`) are
translated as structural functions over `Str`.  The translation is
restricted to the character repertoire the program actually handles:
whitespace is the ASCII whitespace set, `lower`/`upper`/`isdigit` use the
ASCII case maps and digits, and `splitlines` splits on the newline
character.  The `pdfplumber` library is an external collaborator: a
document is modelled by what the library yields from it — per-page
extracted text (`Option Str`) and per-page tables (rows of optional
cells).
-/

set_option maxRecDepth 8192

namespace SInvoice

abbrev Str := List Char

abbrev Cell := Option Str

abbrev Row := List Cell

abbrev Table := List Row

/-- ASCII whitespace, the characters Python `str.strip()` / `str.split()`
treat as space (restricted to ASCII). -/
def pyIsSpace (c : Char) : Bool :=
  c == ' ' || c == '\t' || c == '\n' || c == '\r' || c == '\x0b' || c == '\x0c'

/-- Left part of Python `str.strip()`. -/
def ltrim (s : Str) : Str := s.dropWhile pyIsSpace

/-- Right part of Python `str.strip()`. -/
def rtrim (s : Str) : Str := (s.reverse.dropWhile pyIsSpace).reverse

/-- Python `s.strip()`. -/
def pyStrip (s : Str) : Str := rtrim (ltrim s)

/-- Python `s.lower()` (ASCII). -/
def pyLower (s : Str) : Str := s.map Char.toLower

/-- Python `s.upper()` (ASCII). -/
def pyUpper (s : Str) : Str := s.map Char.toUpper

/-- `strStarts pat s` : does `s` begin with `pat` (Python `s.startswith(pat)`,
also the semantics of `re.search("^" + pat, s)` for a literal pattern). -/
def strStarts : Str → Str → Bool
  | [], _ => true
  | _ :: _, [] => false
  | p :: ps, c :: cs => p == c && strStarts ps cs

/-- Python `s.endswith(pat)`. -/
def strEnds (pat s : Str) : Bool := strStarts pat.reverse s.reverse

/-- Python `needle in s` (substring containment). -/
def strHas (needle : Str) : Str → Bool
  | [] => needle.isEmpty
  | c :: rest => strStarts needle (c :: rest) || strHas needle rest

/-- Python `s.isdigit()` (ASCII digits; nonempty and all digits). -/
def pyIsDigit (s : Str) : Bool := !s.isEmpty && s.all Char.isDigit

/-- Python `s.split(sep)` for a one-character separator `sep`
(`"".split(sep) == [""]`; empty pieces are kept). -/
def splitSep (sep : Char) : Str → List Str
  | [] => [[]]
  | c :: rest =>
    if c == sep then [] :: splitSep sep rest
    else
      match splitSep sep rest with
      | [] => [[c]]
      | t :: ts => (c :: t) :: ts

/-- Python `s.splitlines()`, restricted to the newline character. -/
def pySplitLines (s : Str) : List Str := splitSep '\n' s

/-- Auxiliary scanner for Python `s.split()` (whitespace split): `cur` holds
the reversed characters of the token being read. -/
def wsSplitAux : Str → Str → List Str
  | [], cur => if cur.isEmpty then [] else [cur.reverse]
  | c :: rest, cur =>
    if pyIsSpace c then
      if cur.isEmpty then wsSplitAux rest [] else cur.reverse :: wsSplitAux rest []
    else wsSplitAux rest (c :: cur)

/-- Python `s.split()` — split on whitespace runs, no empty tokens. -/
def pySplitWs (s : Str) : List Str := wsSplitAux s []

/-- Auxiliary for Python `s.split(sep, 1)`. -/
def split1Aux (sep : Char) : Str → Str → List Str
  | [], acc => [acc.reverse]
  | c :: rest, acc =>
    if c == sep then [acc.reverse, rest] else split1Aux sep rest (c :: acc)

/-- Python `s.split(sep, 1)` for a one-character separator. -/
def split1 (sep : Char) (s : Str) : List Str := split1Aux sep s []

/-- Fuel-indexed core of Python `s.replace(old, new)` for nonempty `old`:
replaces non-overlapping occurrences left to right.  Each step consumes at
least one character of `s`, so fuel `s.length` always suffices. -/
def strReplaceF (old new : Str) : Nat → Str → Str
  | 0, s => s
  | _ + 1, [] => []
  | fuel + 1, c :: rest =>
    if strStarts old (c :: rest) && !old.isEmpty then
      new ++ strReplaceF old new fuel (List.drop (old.length - 1) rest)
    else c :: strReplaceF old new fuel rest

/-- Python `s.replace(old, new)`.  The program only calls this with the
nonempty literals `"Net Weight"` / `"Gross Weight"`; the `old = ""` case of
Python (which interleaves `new` everywhere) is not modelled. -/
def strReplace (old new s : Str) : Str := strReplaceF old new s.length s

/-- Python `sep.join(parts)`. -/
def pyJoin (sep : Str) (parts : List Str) : Str := List.intercalate sep parts

/-- String literal constants appearing in `src/main.py`. -/
def sNL : Str := "\n".data

def sSpace : Str := " ".data

def sYes : Str := "Yes".data

def sPdfExt : Str := ".pdf".data

def sOnlyPdf : Str := "Only PDF files supported".data

def kwExporter : Str := "Exporter".data

def kwInvoiceNo : Str := "Invoice No".data

def kwConsignee : Str := "Consignee".data

def kwBuyer : Str := "Buyer".data

def kwPreCarriage : Str := "Pre-carriage".data

def kwPortOfLoading : Str := "Port of Loading".data

def kwPortOfDischarge : Str := "Port of Discharge".data

def kwFinalDestination : Str := "Final Destination".data

def kwREF : Str := "REF".data

def kwNetWeight : Str := "Net Weight".data

def kwGrossWeight : Str := "Gross Weight".data

def kwAmountInWords : Str := "Amount in words".data

def kwTotal : Str := "Total".data

def kwAuthorisedSignature : Str := "Authorised Signature".data

/-- `any(re.search(rf"^{kw}", line, re.IGNORECASE) for kw in kws)`:
does `line` begin, case-insensitively, with one of the keywords?  All
keyword patterns the program passes are literal (no regex metacharacters),
so the anchored `re.search` is a case-insensitive prefix test. -/
def kwAny (kws : List Str) (line : Str) : Bool :=
  kws.any fun kw => strStarts (pyLower kw) (pyLower line)

/-- The loop of `capture_block` (`src/main.py` lines 51-60): `capture` is
the Boolean state; a start-matching line sets it and is skipped
(`continue`); while capturing, a stop-matching line ends the whole scan
(`break`), any other line is appended. -/
def captureScan (startP stopP : Str → Bool) : List Str → Bool → List Str
  | [], _ => []
  | l :: rest, capture =>
    if startP l then captureScan startP stopP rest true
    else if capture then
      if stopP l then []
      else l :: captureScan startP stopP rest true
    else captureScan startP stopP rest false

/-- `capture_block` (`src/main.py` lines 49-61): scan the lines, join the
captured ones with newlines and strip the result. -/
def capture_block (lines : List Str) (start_keywords stop_keywords : List Str) : Str :=
  pyStrip (pyJoin sNL (captureScan (kwAny start_keywords) (kwAny stop_keywords) lines false))

/-- A PDF document as seen through `pdfplumber`: per page, the result of
`page.extract_text()` (absent or a string) and of `page.extract_tables()`
(a list of tables, each a list of rows of optional cells). -/
structure PDFDoc where
  pageTexts : List (Option Str)
  pageTables : List (List Table)
deriving DecidableEq

/-- `extract_text_lines` (`src/main.py` lines 13-20): concatenate the
split lines of each page whose extracted text is truthy, then keep the
lines that are nonempty after stripping, stripped. -/
def extract_text_lines (pageTexts : List (Option Str)) : List Str :=
  let lines := pageTexts.foldl (fun acc t =>
    match t with
    | none => acc
    | some text => if text.isEmpty then acc else acc ++ pySplitLines text) []
  (lines.filter fun l => !(pyStrip l).isEmpty).map pyStrip

/-- `clean_cell` (`src/main.py` lines 23-24): `cell.strip() if cell else ""`. -/
def clean_cell : Cell → Str
  | none => []
  | some c => if c.isEmpty then [] else pyStrip c

structure LineItem where
  sr_no : Str
  hs_code : Str
  description : Str
  qty : Str
  rate : Str
  amount : Str
deriving DecidableEq

/-- The record built at `src/main.py` lines 38-45 from a classified row:
`clean_cell(row[i]) if len(row) > i else ""` for positions 0-5 (position 0
is only read on rows already known nonempty). -/
def rowItem (row : Row) : LineItem :=
  { sr_no := clean_cell (row.headD none)
  , hs_code := if row.length > 1 then clean_cell (row.getD 1 none) else []
  , description := if row.length > 2 then clean_cell (row.getD 2 none) else []
  , qty := if row.length > 3 then clean_cell (row.getD 3 none) else []
  , rate := if row.length > 4 then clean_cell (row.getD 4 none) else []
  , amount := if row.length > 5 then clean_cell (row.getD 5 none) else [] }

/-- Python truthiness of a cell: not `None` and not the empty string. -/
def cellTruthy : Cell → Bool
  | none => false
  | some c => !c.isEmpty

/-- The string held by a cell (`row[0]` once known truthy). -/
def cellStr : Cell → Str
  | none => []
  | some c => c

/-- The row step of `extract_line_items` (`src/main.py` lines 34-45):
`if not row or not row[0]: continue`, then classify by
`row[0].strip().isdigit()` and append the built record. -/
def rowStep (items : List LineItem) (row : Row) : List LineItem :=
  if row.isEmpty || !cellTruthy (row.headD none) then items
  else if cellTruthy (row.headD none) && pyIsDigit (pyStrip (cellStr (row.headD none))) then
    items ++ [rowItem row]
  else items

/-- `extract_line_items` (`src/main.py` lines 27-46): nested loops over
pages, their tables and the tables' rows, appending classified rows. -/
def extract_line_items (pageTables : List (List Table)) : List LineItem :=
  pageTables.foldl (fun items tables =>
    tables.foldl (fun items table => table.foldl rowStep items) items) []

/-- The `for i, l in enumerate(lines)` pattern that stores the following
line on every match (`src/main.py` lines 76-78, 95-98): `acc` is the
current dictionary entry; a match overwrites it with
`lines[i + 1] if i + 1 < len(lines) else ""`, i.e. `rest.headD []`. -/
def scanSetFollow (p : Str → Bool) : List Str → Option Str → Option Str
  | [], acc => acc
  | l :: rest, acc => scanSetFollow p rest (if p l then some (rest.headD []) else acc)

/-- The `for l in lines` pattern that stores `f l` on every match
(`src/main.py` lines 79-81, 99-102, 105-114): later matches overwrite
earlier ones. -/
def scanSetMap (p : Str → Bool) (f : Str → Str) : List Str → Option Str → Option Str
  | [], acc => acc
  | l :: rest, acc => scanSetMap p f rest (if p l then some (f l) else acc)

/-- `l.split()[-1]`, total form: the guarded uses all receive nonempty
non-whitespace lines, where the default is never taken (see
`extract_fields_opt`). -/
def lastTok (l : Str) : Str := (pySplitWs l).getLastD []

/-- The output dictionary of `extract_fields`: each optional field models a
key that the code may leave unset; `authorised_signature` and `line_items`
are always set. -/
structure FieldRecord where
  exporter_name : Option Str
  exporter_address : Option Str
  invoice_no_date : Option Str
  exporter_ref : Option Str
  consignee : Option Str
  buyer : Option Str
  pre_carriage : Option Str
  port_of_loading : Option Str
  port_of_discharge : Option Str
  final_destination : Option Str
  net_weight : Option Str
  gross_weight : Option Str
  amount_in_words : Option Str
  total_amount : Option Str
  authorised_signature : Str
  line_items : List LineItem
deriving DecidableEq

/-- `extract_fields` (`src/main.py` lines 64-122).  Each dictionary key is
written by exactly one scan of the code, so the record is assembled from
one translated scan per field; the scans over the shared loops (lines
76-81, 94-102, 105-114) touch independent keys and are therefore split
per key. -/
def extract_fields (doc : PDFDoc) : FieldRecord :=
  let lines := extract_text_lines doc.pageTexts
  let exporter_block := capture_block lines [kwExporter] [kwInvoiceNo, kwConsignee]
  let parts := splitSep '\n' exporter_block
  let consignee_block := capture_block lines [kwConsignee] [kwBuyer, kwPreCarriage]
  let buyer_block := capture_block lines [kwBuyer] [kwPreCarriage, kwPortOfLoading]
  { exporter_name := if !exporter_block.isEmpty then some (parts.headD []) else none
  , exporter_address :=
      if !exporter_block.isEmpty then
        some (if parts.length > 1 then pyJoin sSpace parts.tail else [])
      else none
  , invoice_no_date := scanSetFollow (fun l => strHas kwInvoiceNo l) lines none
  , exporter_ref := scanSetMap (fun l => strHas kwREF (pyUpper l)) lastTok lines none
  , consignee := if !consignee_block.isEmpty then some consignee_block else none
  , buyer := if !buyer_block.isEmpty then some buyer_block else none
  , pre_carriage := scanSetFollow (fun l => strStarts kwPreCarriage l) lines none
  , port_of_loading := scanSetFollow (fun l => strHas kwPortOfLoading l) lines none
  , port_of_discharge := scanSetMap (fun l => strHas kwPortOfDischarge l) lastTok lines none
  , final_destination := scanSetMap (fun l => strHas kwFinalDestination l) lastTok lines none
  , net_weight :=
      scanSetMap (fun l => strHas kwNetWeight l)
        (fun l => pyStrip (strReplace kwNetWeight [] l)) lines none
  , gross_weight :=
      scanSetMap (fun l => strHas kwGrossWeight l)
        (fun l => pyStrip (strReplace kwGrossWeight [] l)) lines none
  , amount_in_words :=
      scanSetMap (fun l => strHas kwAmountInWords l)
        (fun l => pyStrip ((split1 ':' l).getLastD [])) lines none
  , total_amount := scanSetMap (fun l => strStarts kwTotal l) lastTok lines none
  , authorised_signature :=
      if lines.any (fun l => strHas kwAuthorisedSignature l) then sYes else []
  , line_items := extract_line_items doc.pageTables }

/-- Variant of `scanSetMap` whose per-match computation is a fallible
sequence access: a `none` from `f` is an out-of-range access (a Python
`IndexError`) and aborts the whole scan. -/
def scanSetMapO (p : Str → Bool) (f : Str → Option Str) :
    List Str → Option Str → Option (Option Str)
  | [], acc => some acc
  | l :: rest, acc =>
    if p l then
      match f l with
      | none => none
      | some v => scanSetMapO p f rest (some v)
    else scanSetMapO p f rest acc

/-- `extract_fields` with every unguarded sequence access made explicit:
`parts[0]` becomes `parts.head?` and each `…[-1]` becomes `getLast?`, and
any failed access makes the whole extraction return `none` (the Python
`IndexError`).  The `lines[i + 1]` lookups are guarded in the source by
`i + 1 < len(lines)` and stay total. -/
def extract_fields_opt (doc : PDFDoc) : Option FieldRecord :=
  let lines := extract_text_lines doc.pageTexts
  let exporter_block := capture_block lines [kwExporter] [kwInvoiceNo, kwConsignee]
  let parts := splitSep '\n' exporter_block
  let consignee_block := capture_block lines [kwConsignee] [kwBuyer, kwPreCarriage]
  let buyer_block := capture_block lines [kwBuyer] [kwPreCarriage, kwPortOfLoading]
  (if !exporter_block.isEmpty then (parts.head?).map some else some none).bind fun en =>
  (scanSetMapO (fun l => strHas kwREF (pyUpper l))
      (fun l => (pySplitWs l).getLast?) lines none).bind fun eref =>
  (scanSetMapO (fun l => strHas kwPortOfDischarge l)
      (fun l => (pySplitWs l).getLast?) lines none).bind fun pod =>
  (scanSetMapO (fun l => strHas kwFinalDestination l)
      (fun l => (pySplitWs l).getLast?) lines none).bind fun fdest =>
  (scanSetMapO (fun l => strHas kwAmountInWords l)
      (fun l => ((split1 ':' l).getLast?).map pyStrip) lines none).bind fun aiw =>
  (scanSetMapO (fun l => strStarts kwTotal l)
      (fun l => (pySplitWs l).getLast?) lines none).bind fun tot =>
  some
  { exporter_name := en
  , exporter_address :=
      if !exporter_block.isEmpty then
        some (if parts.length > 1 then pyJoin sSpace parts.tail else [])
      else none
  , invoice_no_date := scanSetFollow (fun l => strHas kwInvoiceNo l) lines none
  , exporter_ref := eref
  , consignee := if !consignee_block.isEmpty then some consignee_block else none
  , buyer := if !buyer_block.isEmpty then some buyer_block else none
  , pre_carriage := scanSetFollow (fun l => strStarts kwPreCarriage l) lines none
  , port_of_loading := scanSetFollow (fun l => strHas kwPortOfLoading l) lines none
  , port_of_discharge := pod
  , final_destination := fdest
  , net_weight :=
      scanSetMap (fun l => strHas kwNetWeight l)
        (fun l => pyStrip (strReplace kwNetWeight [] l)) lines none
  , gross_weight :=
      scanSetMap (fun l => strHas kwGrossWeight l)
        (fun l => pyStrip (strReplace kwGrossWeight [] l)) lines none
  , amount_in_words := aiw
  , total_amount := tot
  , authorised_signature :=
      if lines.any (fun l => strHas kwAuthorisedSignature l) then sYes else []
  , line_items := extract_line_items doc.pageTables }

/-- Filesystem-visible events of one request to `/extract_sample_invoice`. -/
inductive ReqEvent where
  | tmpCreate
  | tmpWrite
  | extractCall
  | tmpUnlink
deriving DecidableEq

/-- Outcome of `await file.read()` / `tmp.write(...)` inside the `with`
block: either the upload body is read and written, or an exception is
raised there. -/
inductive ReadResult where
  | ok
  | raise
deriving DecidableEq

/-- Outcome of the `extract_fields(tmp_path)` call: a field record, or an
exception propagating out of it. -/
inductive ExtractResult where
  | ok (fields : FieldRecord)
  | raise
deriving DecidableEq

/-- Responses the handler can produce: the 400 rejection, the JSON success
wrapper, or the framework-level error page for an unhandled exception. -/
inductive HTTPResp where
  | clientError (status : Nat) (detail : Str)
  | success (fields : FieldRecord)
  | serverError
deriving DecidableEq

/-- `extract_sample_invoice` (`src/main.py` lines 125-138) as a trace
semantics.  The filename gate runs first; on acceptance
`tempfile.NamedTemporaryFile(delete=False)` creates the file, the body is
read and written inside the `with` block (an exception there leaves the
`with` before the `try`/`finally` is entered, so nothing unlinks the
file), and only then does the `try: extract_fields … finally: os.unlink`
region run, whose `finally` unlinks on success and on exception alike. -/
def extract_sample_invoice (filename : Str) (readRes : ReadResult)
    (extractRes : ExtractResult) : List ReqEvent × HTTPResp :=
  if !strEnds sPdfExt (pyLower filename) then
    ([], .clientError 400 sOnlyPdf)
  else
    match readRes with
    | .raise => ([.tmpCreate], .serverError)
    | .ok =>
      match extractRes with
      | .ok fields =>
        ([.tmpCreate, .tmpWrite, .extractCall, .tmpUnlink], .success fields)
      | .raise =>
        ([.tmpCreate, .tmpWrite, .extractCall, .tmpUnlink], .serverError)

/-! ### Spec-side scanners for the block-capture claims -/

/-- The lines after the first line satisfying `p`, if any. -/
def afterFirst (p : Str → Bool) : List Str → Option (List Str)
  | [] => none
  | l :: rest => if p l then some rest else afterFirst p rest

/-- The lines before the first line satisfying `p` (that line excluded). -/
def takeUntil (p : Str → Bool) : List Str → List Str
  | [] => []
  | l :: rest => if p l then [] else l :: takeUntil p rest

/-- Claim C1 taken at its words: once capturing, every subsequent line is
appended until, exclusively, the first stop-matching line; start matches
after capture has begun get no special treatment. -/
def captureBlockClaimC1 (lines : List Str) (start_keywords stop_keywords : List Str) : Str :=
  match afterFirst (kwAny start_keywords) lines with
  | none => []
  | some post => pyStrip (pyJoin sNL (takeUntil (kwAny stop_keywords) post))

/-- The capturing phase as the code performs it: start-matching lines are
skipped (capture continues), a stop-matching line on a non-start line ends
the scan, everything else is appended. -/
def specScanTail (startP stopP : Str → Bool) : List Str → List Str
  | [] => []
  | l :: rest =>
    if startP l then specScanTail startP stopP rest
    else if stopP l then []
    else l :: specScanTail startP stopP rest

/-- Claim C1 as amended: after the first start match, subsequent
start-matching lines are skipped without being appended or stop-tested;
any other line is appended unless it is a stop match, which ends capture
for good. -/
def captureBlockAmendedC1 (lines : List Str) (start_keywords stop_keywords : List Str) : Str :=
  match afterFirst (kwAny start_keywords) lines with
  | none => []
  | some post =>
    pyStrip (pyJoin sNL (specScanTail (kwAny start_keywords) (kwAny stop_keywords) post))

lemma captureScan_true_eq (startP stopP : Str → Bool) :
    ∀ lines : List Str, captureScan startP stopP lines true = specScanTail startP stopP lines := by
  intro lines
  induction lines with
  | nil => rfl
  | cons l rest ih =>
    unfold captureScan specScanTail
    by_cases h : startP l = true
    · simp [h, ih]
    · simp [h, ih]

lemma captureScan_false_eq (startP stopP : Str → Bool) :
    ∀ lines : List Str,
      captureScan startP stopP lines false =
        match afterFirst startP lines with
        | none => []
        | some post => specScanTail startP stopP post := by
  intro lines
  induction lines with
  | nil => rfl
  | cons l rest ih =>
    unfold captureScan afterFirst
    by_cases h : startP l = true
    · simp [h, captureScan_true_eq]
    · simp [h, ih]

/-- `afterFirst` on a list split at its first match. -/
lemma afterFirst_split (p : Str → Bool) :
    ∀ pre : List Str, ∀ s post, (∀ l ∈ pre, p l = false) → p s = true →
      afterFirst p (pre ++ s :: post) = some post := by
  intro pre
  induction pre with
  | nil => intro s post _ hs; simp [afterFirst, hs]
  | cons x rest ih =>
    intro s post hpre hs
    have hx : p x = false := hpre x (by simp)
    simp only [List.cons_append, afterFirst, hx]
    simp only [Bool.false_eq_true, if_false]
    exact ih s post (fun l hl => hpre l (by simp [hl])) hs

lemma specScanTail_no_stop (startP stopP : Str → Bool) :
    ∀ post : List Str, (∀ l ∈ post, stopP l = false) →
      specScanTail startP stopP post = post.filter fun l => !startP l := by
  intro post
  induction post with
  | nil => intro _; rfl
  | cons l rest ih =>
    intro h
    have hstop : stopP l = false := h l (by simp)
    have hrest := ih fun x hx => h x (by simp [hx])
    unfold specScanTail
    by_cases hs : startP l = true
    · simp [hs, hrest, List.filter_cons]
    · simp only [Bool.not_eq_true] at hs
      simp [hs, hstop, hrest, List.filter_cons]

/-- C1: the claim says that once capturing has begun, every subsequent
line is appended unless it begins with a stop keyword.  The code instead
skips any line that begins with a start keyword: on
`["A", "A", "B"]` with start keyword `"A"` and stop keyword `"S"`, the
claim predicts the block `"A\nB"` but `capture_block` returns `"B"`. -/
theorem capture_block_c1_counterexample :
    capture_block [['A'], ['A'], ['B']] [[ 'A' ]] [[ 'S' ]] ≠
      captureBlockClaimC1 [['A'], ['A'], ['B']] [[ 'A' ]] [[ 'S' ]] := by
  decide

/-- C1 (amended): once a line matching a start keyword has put the scan in
capturing state, every subsequent line that does not itself begin
(case-insensitively) with a start keyword is appended to the block unless
it begins with a stop keyword, in which case capture ends immediately,
that stop line is excluded, and scanning never resumes; lines beginning
with a start keyword are skipped without ending capture, and only the
first start/stop span is captured. -/
theorem capture_block_c1_amended (lines : List Str) (start_keywords stop_keywords : List Str) :
    capture_block lines start_keywords stop_keywords =
      captureBlockAmendedC1 lines start_keywords stop_keywords := by
  unfold capture_block captureBlockAmendedC1
  rw [captureScan_false_eq]
  cases afterFirst (kwAny start_keywords) lines with
  | none => rfl
  | some post => rfl

/-- C7: if some line matches a start keyword, no earlier line matches one,
and no line after it matches a stop keyword, then the captured block keeps
every capturable line through the document's final line: it is exactly the
remainder of the document (minus skipped start-matching lines), joined and
stripped — capture is never cut off before the end. -/
theorem capture_block_extends_to_end (pre : List Str) (s : Str) (post : List Str)
    (start_keywords stop_keywords : List Str)
    (hpre : ∀ l ∈ pre, kwAny start_keywords l = false)
    (hs : kwAny start_keywords s = true)
    (hpost : ∀ l ∈ post, kwAny stop_keywords l = false) :
    capture_block (pre ++ s :: post) start_keywords stop_keywords =
      pyStrip (pyJoin sNL (post.filter fun l => !kwAny start_keywords l)) := by
  unfold capture_block
  rw [captureScan_false_eq, afterFirst_split (kwAny start_keywords) pre s post hpre hs]
  exact congrArg (fun x => pyStrip (pyJoin sNL x))
    (specScanTail_no_stop (kwAny start_keywords) (kwAny stop_keywords) post hpost)

/-- Witness for C7 at a concrete document. -/
theorem capture_block_extends_to_end_witness :
    capture_block [kwExporter, "x".data, "y".data] [kwExporter] [kwTotal] =
      pyStrip (pyJoin sNL (([ "x".data, "y".data ]).filter fun l => !kwAny [kwExporter] l)) :=
  capture_block_extends_to_end [] kwExporter ["x".data, "y".data] [kwExporter] [kwTotal]
    (by decide) (by decide) (by decide)

lemma captureScan_not_start (startP stopP : Str → Bool) :
    ∀ (lines : List Str) (b : Bool) (l : Str),
      l ∈ captureScan startP stopP lines b → startP l = false := by
  intro lines
  induction lines with
  | nil => intro b l h; simp [captureScan] at h
  | cons x rest ih =>
    intro b l h
    unfold captureScan at h
    by_cases hx : startP x = true
    · simp only [hx, if_true] at h
      exact ih true l h
    · simp only [hx, Bool.false_eq_true, if_false] at h
      cases b with
      | true =>
        simp only [if_true] at h
        by_cases hstop : stopP x = true
        · simp [hstop] at h
        · simp only [hstop, Bool.false_eq_true, if_false, List.mem_cons] at h
          rcases h with h | h
          · subst h; simpa using hx
          · exact ih true l h
      | false =>
        simp only [Bool.false_eq_true, if_false] at h
        exact ih false l h

lemma captureScan_stop_not_tested_on_start (startP stopP : Str → Bool) :
    ∀ (lines : List Str) (b : Bool),
      captureScan startP stopP lines b =
        captureScan startP (fun l => stopP l && !startP l) lines b := by
  intro lines
  induction lines with
  | nil => intro b; rfl
  | cons x rest ih =>
    intro b
    unfold captureScan
    by_cases hx : startP x = true
    · simp [hx, ih]
    · simp only [Bool.not_eq_true] at hx
      simp [hx, ih]

/-- C9: the returned block never contains a line that begins
(case-insensitively) with a start keyword — such lines are skipped even
after capturing has begun — and they are never tested against the stop
keywords: weakening the stop test to apply only to non-start lines changes
nothing.  The first conjunct ties the scanner to `capture_block`. -/
theorem capture_block_start_lines_skipped (lines : List Str)
    (start_keywords stop_keywords : List Str) :
    (capture_block lines start_keywords stop_keywords =
        pyStrip (pyJoin sNL
          (captureScan (kwAny start_keywords) (kwAny stop_keywords) lines false)))
    ∧ (∀ l ∈ captureScan (kwAny start_keywords) (kwAny stop_keywords) lines false,
        kwAny start_keywords l = false)
    ∧ (∀ b : Bool,
        captureScan (kwAny start_keywords) (kwAny stop_keywords) lines b =
          captureScan (kwAny start_keywords)
            (fun l => kwAny stop_keywords l && !kwAny start_keywords l) lines b) :=
  ⟨rfl,
   fun l hl => captureScan_not_start _ _ lines false l hl,
   fun b => captureScan_stop_not_tested_on_start _ _ lines b⟩

/-- Witness for C9 at a concrete input: the captured block of
`["A", "x"]` is `["x"]`, and the theorem yields that the member `"x"`
matches no start keyword. -/
theorem capture_block_start_lines_skipped_witness :
    kwAny [[ 'A' ]] ("x".data) = false :=
  (capture_block_start_lines_skipped [['A'], "x".data] [[ 'A' ]] [[ 'S' ]]).2.1
    ("x".data) (by decide)

/-! ### invoice_no_date (claim C2) -/

lemma scanSetFollow_no_match (p : Str → Bool) :
    ∀ (xs : List Str) (acc : Option Str), (∀ l ∈ xs, p l = false) →
      scanSetFollow p xs acc = acc := by
  intro xs
  induction xs with
  | nil => intro acc _; rfl
  | cons x rest ih =>
    intro acc h
    have hx : p x = false := h x (by simp)
    unfold scanSetFollow
    rw [hx]
    simp only [Bool.false_eq_true, if_false]
    exact ih acc fun l hl => h l (by simp [hl])

lemma scanSetFollow_last_match (p : Str → Bool) :
    ∀ (pre : List Str) (m : Str) (post : List Str) (acc : Option Str),
      p m = true → (∀ l ∈ post, p l = false) →
      scanSetFollow p (pre ++ m :: post) acc = some (post.headD []) := by
  intro pre
  induction pre with
  | nil =>
    intro m post acc hm hpost
    simp only [List.nil_append]
    unfold scanSetFollow
    rw [hm]
    simp only [if_true]
    exact scanSetFollow_no_match p post _ hpost
  | cons x rest ih =>
    intro m post acc hm hpost
    simp only [List.cons_append]
    unfold scanSetFollow
    exact ih m post _ hm hpost

/-- The `invoice_no_date` value claim C2 asserts, taken at its words: the
line immediately following the first line containing `"Invoice No"`, or
the empty string when that first matching line is the last line. -/
def invoiceNoDateClaimC2 (lines : List Str) : Option Str :=
  (afterFirst (fun l => strHas kwInvoiceNo l) lines).map fun post => post.headD []

/-- C2: the claim says the line following the FIRST line containing
`"Invoice No"` is stored, but the loop at `src/main.py` lines 76-78
overwrites the key on every match, so the last match wins.  On the
document whose lines are `["Invoice No", "X", "Invoice No", "Y"]` the
claim predicts `"X"` while the code stores `"Y"`. -/
theorem invoice_no_date_c2_counterexample :
    (extract_fields ⟨[some ("Invoice No\nX\nInvoice No\nY".data)], []⟩).invoice_no_date ≠
      invoiceNoDateClaimC2 (extract_text_lines [some ("Invoice No\nX\nInvoice No\nY".data)]) := by
  decide

/-- C2 (amended): for every document containing at least one line with the
substring `"Invoice No"` (case-sensitive), `invoice_no_date` is the line
immediately following the LAST such line — later matches overwrite earlier
ones — or the empty string when that last matching line is the final line
of the document. -/
theorem invoice_no_date_last_match (doc : PDFDoc) (pre : List Str) (m : Str) (post : List Str)
    (heq : extract_text_lines doc.pageTexts = pre ++ m :: post)
    (hm : strHas kwInvoiceNo m = true)
    (hpost : ∀ l ∈ post, strHas kwInvoiceNo l = false) :
    (extract_fields doc).invoice_no_date = some (post.headD []) := by
  have hproj : (extract_fields doc).invoice_no_date =
      scanSetFollow (fun l => strHas kwInvoiceNo l) (extract_text_lines doc.pageTexts) none :=
    rfl
  rw [hproj, heq]
  exact scanSetFollow_last_match _ pre m post none hm hpost

/-- Witness for the amended C2 at a concrete document: the single
`"Invoice No"` line is followed by `"X"`. -/
theorem invoice_no_date_last_match_witness :
    (extract_fields ⟨[some ("Invoice No\nX".data)], []⟩).invoice_no_date =
      some (([ "X".data ] : List Str).headD []) :=
  invoice_no_date_last_match ⟨[some ("Invoice No\nX".data)], []⟩ [] kwInvoiceNo ["X".data]
    (by decide) (by decide) (by decide)

/-! ### authorised_signature (claim C6) -/

/-- C6: the extraction output always carries `authorised_signature`
(structurally: the field is total in `FieldRecord`), its value is `"Yes"`
exactly when some extracted line contains the substring
`"Authorised Signature"`, and otherwise it is the empty string — one of
exactly two values. -/
theorem authorised_signature_two_valued (doc : PDFDoc) :
    ((extract_fields doc).authorised_signature = sYes ↔
        ∃ l ∈ extract_text_lines doc.pageTexts, strHas kwAuthorisedSignature l = true)
    ∧ ((extract_fields doc).authorised_signature = sYes ∨
        (extract_fields doc).authorised_signature = []) := by
  have hproj : (extract_fields doc).authorised_signature =
      (if (extract_text_lines doc.pageTexts).any (fun l => strHas kwAuthorisedSignature l)
        then sYes else []) := rfl
  by_cases hc : (extract_text_lines doc.pageTexts).any
      (fun l => strHas kwAuthorisedSignature l) = true
  · rw [hproj, if_pos hc]
    refine ⟨⟨fun _ => ?_, fun _ => rfl⟩, Or.inl rfl⟩
    exact List.any_eq_true.1 hc
  · rw [hproj, if_neg hc]
    refine ⟨⟨fun h => absurd h.symm (by decide), fun h => absurd (List.any_eq_true.2 h) hc⟩,
      Or.inr rfl⟩

/-! ### Determinism (claim C8) -/

/-- C8: `extract_fields` is a pure function of the document content — two
extraction runs over the same bytes (hence the same extracted lines and
tables) produce identical field records; no state outside the document
enters the computation. -/
theorem extract_fields_deterministic (d₁ d₂ : PDFDoc) (h : d₁ = d₂) :
    extract_fields d₁ = extract_fields d₂ := by
  rw [h]

/-- Witness for C8: two runs on one concrete document agree. -/
theorem extract_fields_deterministic_witness :
    extract_fields ⟨[some ("Total 45000".data)], []⟩ =
      extract_fields ⟨[some ("Total 45000".data)], []⟩ :=
  extract_fields_deterministic _ _ rfl

/-! ### HTTP boundary (claims C4 and C5) -/

/-- C5: a filename that does not end in `".pdf"` (case-insensitively) is
rejected with HTTP 400 and detail `"Only PDF files supported"`, whatever
the body read or the extraction would have done; the empty event trace
shows that no temporary file is created and no parsing is attempted. -/
theorem reject_non_pdf (filename : Str) (readRes : ReadResult) (extractRes : ExtractResult)
    (h : strEnds sPdfExt (pyLower filename) = false) :
    extract_sample_invoice filename readRes extractRes =
      ([], HTTPResp.clientError 400 sOnlyPdf) := by
  unfold extract_sample_invoice
  rw [h]
  rfl

/-- Witness for C5: scenario E of the spec, filename `"invoice.txt"`. -/
theorem reject_non_pdf_witness :
    extract_sample_invoice ("invoice.txt".data) ReadResult.ok ExtractResult.raise =
      ([], HTTPResp.clientError 400 sOnlyPdf) :=
  reject_non_pdf ("invoice.txt".data) ReadResult.ok ExtractResult.raise (by decide)

/-- C4: the claim asserts the temporary file is deleted on EVERY exit path
after its creation, but an exception raised by
`tmp.write(await file.read())` escapes the `with` block before the
`try`/`finally` is entered, and `delete=False` means closing does not
remove the file: on an accepted `"a.pdf"` upload whose body read raises,
the trace creates the temporary file and never unlinks it. -/
theorem temp_file_leak_on_read_failure :
    ReqEvent.tmpCreate ∈
        (extract_sample_invoice ("a.pdf".data) ReadResult.raise ExtractResult.raise).1
    ∧ ReqEvent.tmpUnlink ∉
        (extract_sample_invoice ("a.pdf".data) ReadResult.raise ExtractResult.raise).1 := by
  decide

/-- C4 (amended): for every accepted upload whose body is successfully
read and written to the temporary file, the file is deleted before the
request completes on both remaining exit paths — when `extract_fields`
succeeds and when it raises; a failure while reading or writing the
upload body after the file is created leaves it undeleted. -/
theorem temp_file_deleted_after_write (filename : Str) (extractRes : ExtractResult)
    (h : strEnds sPdfExt (pyLower filename) = true) :
    (extract_sample_invoice filename ReadResult.ok extractRes).1 =
      [ReqEvent.tmpCreate, ReqEvent.tmpWrite, ReqEvent.extractCall, ReqEvent.tmpUnlink] := by
  unfold extract_sample_invoice
  rw [h]
  cases extractRes with
  | ok fields => rfl
  | raise => rfl

/-- Witness for the amended C4: an accepted `"a.pdf"` upload whose
extraction raises still unlinks the temporary file. -/
theorem temp_file_deleted_after_write_witness :
    (extract_sample_invoice ("a.pdf".data) ReadResult.ok ExtractResult.raise).1 =
      [ReqEvent.tmpCreate, ReqEvent.tmpWrite, ReqEvent.extractCall, ReqEvent.tmpUnlink] :=
  temp_file_deleted_after_write ("a.pdf".data) ExtractResult.raise (by decide)

/-! ### Line items (claim C3) -/

/-- Claim-side cell accessor: the trimmed cell at position `i`; a missing
(`None`) or out-of-range cell yields the empty string. -/
def claimCell (row : Row) (i : Nat) : Str :=
  match row[i]? with
  | some (some c) => pyStrip c
  | _ => []

/-- Claim-side record: the trimmed cells at positions 0-5. -/
def claimItem (row : Row) : LineItem :=
  { sr_no := claimCell row 0
  , hs_code := claimCell row 1
  , description := claimCell row 2
  , qty := claimCell row 3
  , rate := claimCell row 4
  , amount := claimCell row 5 }

/-- Claim-side classification of a table row: it yields a record exactly
when its first cell, trimmed, consists solely of digit characters (so a
row whose first cell is absent, empty, or not purely numeric is
excluded). -/
def claimRow (row : Row) : Option LineItem :=
  match row[0]? with
  | some (some c) => if pyIsDigit (pyStrip c) then some (claimItem row) else none
  | _ => none

lemma pyStrip_nil : pyStrip [] = [] := rfl

lemma clean_cell_some (c : Str) : clean_cell (some c) = pyStrip c := by
  simp only [clean_cell]
  by_cases h : c.isEmpty
  · rw [if_pos h, List.isEmpty_iff.1 h]
    rfl
  · rw [if_neg h]

lemma claimCell_cons_succ (c : Cell) (rest : Row) (j : Nat) :
    claimCell (c :: rest) (j + 1) = claimCell rest j := by
  unfold claimCell
  rw [List.getElem?_cons_succ]

lemma guarded_cell_eq (row : Row) : ∀ i : Nat,
    (if row.length > i then clean_cell (row.getD i none) else []) = claimCell row i := by
  induction row with
  | nil => intro i; simp [claimCell]
  | cons c rest ih =>
    intro i
    cases i with
    | zero =>
      simp only [List.length_cons, List.getD_cons_zero, claimCell, List.getElem?_cons_zero,
        gt_iff_lt, Nat.succ_pos, if_true]
      cases c with
      | none => rfl
      | some s => exact clean_cell_some s
    | succ j =>
      rw [claimCell_cons_succ]
      simp only [List.length_cons, List.getD_cons_succ, gt_iff_lt, Nat.succ_lt_succ_iff]
      exact ih j

lemma rowItem_eq_claimItem (row : Row) : rowItem row = claimItem row := by
  have h0 : clean_cell (row.headD none) = claimCell row 0 := by
    cases row with
    | nil => rfl
    | cons c rest =>
      simp only [List.headD_cons, claimCell, List.getElem?_cons_zero]
      cases c with
      | none => rfl
      | some s => exact clean_cell_some s
  unfold rowItem claimItem
  rw [h0, guarded_cell_eq row 1, guarded_cell_eq row 2, guarded_cell_eq row 3,
    guarded_cell_eq row 4, guarded_cell_eq row 5]

lemma rowStep_eq (items : List LineItem) (row : Row) :
    rowStep items row = items ++ (claimRow row).toList := by
  cases row with
  | nil => simp [rowStep, claimRow]
  | cons c rest =>
    cases c with
    | none => simp [rowStep, claimRow, cellTruthy]
    | some s =>
      by_cases hs : s.isEmpty
      · rw [List.isEmpty_iff.1 hs]
        simp [rowStep, claimRow, cellTruthy, pyIsDigit, pyStrip_nil]
      · by_cases hd : pyIsDigit (pyStrip s) = true
        · simp [rowStep, claimRow, cellTruthy, cellStr, hs, hd, rowItem_eq_claimItem]
        · simp [rowStep, claimRow, cellTruthy, cellStr, hs, hd]

lemma foldl_rowStep (table : Table) :
    ∀ items, table.foldl rowStep items = items ++ table.filterMap claimRow := by
  induction table with
  | nil => intro items; simp
  | cons r t ih =>
    intro items
    rw [List.foldl_cons, ih, rowStep_eq, List.filterMap_cons]
    cases h : claimRow r <;> simp [h]

lemma foldl_tables (tables : List Table) :
    ∀ items, tables.foldl (fun items table => table.foldl rowStep items) items =
      items ++ tables.flatten.filterMap claimRow := by
  induction tables with
  | nil => intro items; simp
  | cons t ts ih =>
    intro items
    rw [List.foldl_cons, ih, foldl_rowStep, List.flatten_cons, List.filterMap_append,
      List.append_assoc]

lemma extract_line_items_char (pageTables : List (List Table)) :
    extract_line_items pageTables = (pageTables.flatten.flatten).filterMap claimRow := by
  unfold extract_line_items
  suffices h : ∀ items, pageTables.foldl
      (fun items tables => tables.foldl (fun items table => table.foldl rowStep items) items)
      items = items ++ (pageTables.flatten.flatten).filterMap claimRow by
    simpa using h []
  induction pageTables with
  | nil => intro items; simp
  | cons p ps ih =>
    intro items
    rw [List.foldl_cons, ih, foldl_tables, List.flatten_cons, List.flatten_append,
      List.filterMap_append, List.append_assoc]

/-- C3: `line_items` is always present as a (possibly empty) list — it is
a total field of the output record — and equals, in order, one record per
table row whose first cell, trimmed, consists solely of digit characters,
each record holding the trimmed cells at positions 0-5 with missing or
out-of-range cells as empty strings; rows whose first cell is absent,
empty or not purely numeric contribute nothing. -/
theorem line_items_characterization (doc : PDFDoc) :
    (extract_fields doc).line_items =
      (doc.pageTables.flatten.flatten).filterMap claimRow := by
  have hproj : (extract_fields doc).line_items = extract_line_items doc.pageTables := rfl
  rw [hproj]
  exact extract_line_items_char doc.pageTables

/-! ### Absence of out-of-range accesses (claim C10) -/

lemma dropWhile_eq_cons_head (p : Char → Bool) :
    ∀ (l : Str) {c : Char} {t : Str}, l.dropWhile p = c :: t → p c = false := by
  intro l
  induction l with
  | nil => intro c t h; simp [List.dropWhile] at h
  | cons a l ih =>
    intro c t h
    rw [List.dropWhile_cons] at h
    by_cases ha : p a = true
    · rw [if_pos ha] at h
      exact ih h
    · rw [if_neg ha] at h
      injection h with h1 _
      subst h1
      simpa using ha

lemma exists_append_dropWhile (p : Char → Bool) :
    ∀ l : Str, ∃ u, u ++ l.dropWhile p = l := by
  intro l
  induction l with
  | nil => exact ⟨[], rfl⟩
  | cons a l ih =>
    by_cases ha : p a = true
    · obtain ⟨u, hu⟩ := ih
      exact ⟨a :: u, by rw [List.dropWhile_cons, if_pos ha, List.cons_append, hu]⟩
    · exact ⟨[], by rw [List.dropWhile_cons, if_neg ha]; rfl⟩

lemma rtrim_eq_cons {y : Str} {c : Char} {t : Str} (h : rtrim y = c :: t) :
    ∃ t0, y = c :: t0 := by
  obtain ⟨u, hu⟩ := exists_append_dropWhile pyIsSpace y.reverse
  have h1 : (u ++ y.reverse.dropWhile pyIsSpace).reverse = y := by
    rw [hu, List.reverse_reverse]
  rw [List.reverse_append] at h1
  unfold rtrim at h
  rw [h] at h1
  exact ⟨t ++ u.reverse, by rw [← h1]; rfl⟩

lemma pyStrip_eq_cons {s : Str} {c : Char} {t : Str} (h : pyStrip s = c :: t) :
    pyIsSpace c = false := by
  unfold pyStrip at h
  obtain ⟨t0, h0⟩ := rtrim_eq_cons h
  exact dropWhile_eq_cons_head pyIsSpace s h0

lemma wsSplitAux_ne_nil : ∀ (s cur : Str), cur ≠ [] → wsSplitAux s cur ≠ [] := by
  intro s
  induction s with
  | nil =>
    intro cur h
    unfold wsSplitAux
    simp [List.isEmpty_iff, h]
  | cons c rest ih =>
    intro cur h
    unfold wsSplitAux
    by_cases hc : pyIsSpace c = true
    · have hcur : cur.isEmpty = false := by simp [List.isEmpty_iff, h]
      simp only [hc, if_true, hcur, Bool.false_eq_true, if_false]
      simp
    · simp only [hc, Bool.false_eq_true, if_false]
      exact ih (c :: cur) (by simp)

lemma pySplitWs_ne_nil {c : Char} {t : Str} (hc : pyIsSpace c = false) :
    pySplitWs (c :: t) ≠ [] := by
  unfold pySplitWs wsSplitAux
  simp only [hc, Bool.false_eq_true, if_false]
  exact wsSplitAux_ne_nil t [c] (by simp)

/-- Every line produced by `extract_text_lines` is nonempty and starts
with a non-whitespace character, so its whitespace split is nonempty. -/
lemma mem_lines_splitWs {pts : List (Option Str)} {m : Str}
    (hm : m ∈ extract_text_lines pts) : pySplitWs m ≠ [] := by
  unfold extract_text_lines at hm
  simp only [List.mem_map, List.mem_filter] at hm
  obtain ⟨l0, ⟨_, hne⟩, hstrip⟩ := hm
  have hnn : pyStrip l0 ≠ [] := by simpa [List.isEmpty_iff] using hne
  cases hps : pyStrip l0 with
  | nil => exact absurd hps hnn
  | cons c t =>
    rw [← hstrip, hps]
    exact pySplitWs_ne_nil (pyStrip_eq_cons hps)

lemma getLast?_eq_some_getLastD :
    ∀ (l : List Str) (a d : Str), (a :: l).getLast? = some ((a :: l).getLastD d) := by
  intro l
  induction l with
  | nil => intro a d; rfl
  | cons b l ih =>
    intro a d
    rw [List.getLast?_cons_cons, List.getLastD_cons, ih b a]

lemma getLast?_of_ne_nil {xs : List Str} (h : xs ≠ []) :
    xs.getLast? = some (xs.getLastD []) := by
  cases xs with
  | nil => exact absurd rfl h
  | cons a l => exact getLast?_eq_some_getLastD l a []

lemma head?_of_ne_nil {xs : List Str} (h : xs ≠ []) : xs.head? = some (xs.headD []) := by
  cases xs with
  | nil => exact absurd rfl h
  | cons a l => rfl

lemma splitSep_ne_nil (sep : Char) : ∀ s : Str, splitSep sep s ≠ [] := by
  intro s
  induction s with
  | nil => simp [splitSep]
  | cons c rest ih =>
    unfold splitSep
    by_cases hc : (c == sep) = true
    · simp [hc]
    · simp only [hc, Bool.false_eq_true, if_false]
      cases h : splitSep sep rest with
      | nil => exact absurd h ih
      | cons t ts => simp

lemma split1_ne_nil (sep : Char) (s : Str) : split1 sep s ≠ [] := by
  unfold split1
  suffices h : ∀ (x acc : Str), split1Aux sep x acc ≠ [] from h s []
  intro x
  induction x with
  | nil => intro acc; simp [split1Aux]
  | cons c rest ih =>
    intro acc
    unfold split1Aux
    by_cases hc : (c == sep) = true
    · simp [hc]
    · simp only [hc, Bool.false_eq_true, if_false]
      exact ih (c :: acc)

lemma scanSetMapO_eq (p : Str → Bool) (fO : Str → Option Str) (f : Str → Str) :
    ∀ lines : List Str, (∀ l ∈ lines, p l = true → fO l = some (f l)) →
      ∀ acc, scanSetMapO p fO lines acc = some (scanSetMap p f lines acc) := by
  intro lines
  induction lines with
  | nil => intro _ acc; rfl
  | cons l rest ih =>
    intro h acc
    unfold scanSetMapO scanSetMap
    by_cases hl : p l = true
    · simp only [hl, if_true]
      rw [h l (by simp) hl]
      exact ih (fun x hx => h x (by simp [hx])) (some (f l))
    · simp only [hl, Bool.false_eq_true, if_false]
      exact ih (fun x hx => h x (by simp [hx])) acc

/-- C10: `extract_fields` performs no out-of-range sequence access on the
output of `extract_text_lines`: the instrumented extractor, in which every
`…[-1]` and `parts[0]` access is a fallible lookup that aborts with `none`
on an `IndexError`, returns `some` of the total extractor's record on
every document — because every extracted line is trimmed and nonempty, so
its whitespace split is never empty, and every `lines[i + 1]` lookup is
guarded by the `i + 1 < len(lines)` test. -/
theorem extract_fields_no_index_error (doc : PDFDoc) :
    extract_fields_opt doc = some (extract_fields doc) := by
  have hmem : ∀ l ∈ extract_text_lines doc.pageTexts, pySplitWs l ≠ [] :=
    fun l hl => mem_lines_splitWs hl
  have hTok : ∀ (p : Str → Bool) (acc : Option Str),
      scanSetMapO p (fun l => (pySplitWs l).getLast?) (extract_text_lines doc.pageTexts) acc =
        some (scanSetMap p lastTok (extract_text_lines doc.pageTexts) acc) := by
    intro p acc
    apply scanSetMapO_eq
    intro l hl _
    unfold lastTok
    exact getLast?_of_ne_nil (hmem l hl)
  have hAiw : ∀ acc : Option Str,
      scanSetMapO (fun l => strHas kwAmountInWords l)
          (fun l => ((split1 ':' l).getLast?).map pyStrip)
          (extract_text_lines doc.pageTexts) acc =
        some (scanSetMap (fun l => strHas kwAmountInWords l)
          (fun l => pyStrip ((split1 ':' l).getLastD []))
          (extract_text_lines doc.pageTexts) acc) := by
    intro acc
    apply scanSetMapO_eq
    intro l _ _
    rw [getLast?_of_ne_nil (split1_ne_nil ':' l)]
    rfl
  have hHead : ∀ eb : Str,
      (if !eb.isEmpty then ((splitSep '\n' eb).head?).map some else some none) =
        some (if !eb.isEmpty then some ((splitSep '\n' eb).headD []) else none) := by
    intro eb
    by_cases he : eb.isEmpty
    · simp [he]
    · simp only [he, Bool.not_false, if_true]
      rw [head?_of_ne_nil (splitSep_ne_nil '\n' eb)]
      rfl
  unfold extract_fields_opt extract_fields
  simp only [hHead, hTok, hAiw]
  rfl

end SInvoice
